import Mathlib

/-!
Verification of the `@mojojs/template` embedded-template compiler
(`src/template.ts` together with its utility module).

Strings are modelled as `List Char` (`Str`), so that the character-level
scanning done by the TypeScript code (regex matching, `split`, `replaceAll`)
becomes ordinary structural recursion.  Loops over a mutable cursor are
translated into recursion with an explicit fuel argument; every wrapper
passes fuel derived from the input length, which is ample because each
iteration of the original loop consumes at least one character (or one AST
node).  Embedded JavaScript expression evaluation is the host evaluator's
job (the engine lowers expressions verbatim into generated source), so the
render-semantics interpreter takes an oracle mapping an expression's source
text to the value the host produces for it.
-/

/-- Strings as lists of characters. -/
abbrev Str := List Char

/-- JavaScript `\s`: tab, LF, vertical tab, form feed, CR, space, NBSP,
Ogham space mark, the U+2000 to U+200A spaces, the line and paragraph
separators, narrow no-break space, medium mathematical space, ideographic
space and the BOM. -/
def jsWs (c : Char) : Bool :=
  c = ' ' || c = '\t' || c = '\n' || c = Char.ofNat 11 || c = Char.ofNat 12 || c = '\r' ||
  c = Char.ofNat 0xa0 || c = Char.ofNat 0x1680 ||
  (Char.ofNat 0x2000 ≤ c && c ≤ Char.ofNat 0x200a) ||
  c = Char.ofNat 0x2028 || c = Char.ofNat 0x2029 || c = Char.ofNat 0x202f ||
  c = Char.ofNat 0x205f || c = Char.ofNat 0x3000 || c = Char.ofNat 0xfeff

/-- The line terminators, which JavaScript's `.` (without the `s` flag)
does not match: LF, CR, line separator and paragraph separator. -/
def jsLineTerm (c : Char) : Bool :=
  c = '\n' || c = '\r' || c = Char.ofNat 0x2028 || c = Char.ofNat 0x2029

/-- JavaScript `\w`: ASCII letters, digits and underscore. -/
def isWordChar (c : Char) : Bool :=
  ('a' ≤ c && c ≤ 'z') || ('A' ≤ c && c ≤ 'Z') || ('0' ≤ c && c ≤ '9') || c = '_'

/-- Decimal rendering of a natural number (JS template interpolation of a
non-negative number). -/
def natToStr (n : Nat) : Str := Nat.toDigits 10 n

/-- Decimal rendering of an integer. -/
def intToStr (i : Int) : Str :=
  if i < 0 then '-' :: natToStr i.natAbs else natToStr i.toNat

/-- Prepend a character to the first line of a nonempty split. -/
def headCons (c : Char) : List Str → List Str
  | [] => [[c]]
  | l :: ls => (c :: l) :: ls

/-- `template.split(/\r?\n/)` from the `Template` constructor: cut the raw
template at every LF, additionally consuming a CR that immediately precedes
the LF.  A CR not followed by LF is ordinary text. -/
def splitLines : Str → List Str
  | [] => [[]]
  | [c] => if c = '\n' then [[], []] else [[c]]
  | c :: d :: rest =>
    if c = '\n' then [] :: splitLines (d :: rest)
    else if c = '\r' && d = '\n' then [] :: splitLines rest
    else headCons c (splitLines (d :: rest))

/-- Join a list of lines with a single LF between consecutive lines. -/
def joinLF : List Str → Str
  | [] => []
  | [l] => l
  | l :: ls => l ++ '\n' :: joinLF ls

/-- Replace every CRLF pair by a single LF, leaving lone CRs alone. -/
def normalizeCRLF : Str → Str
  | [] => []
  | [c] => [c]
  | c :: d :: rest =>
    if c = '\r' && d = '\n' then '\n' :: normalizeCRLF rest
    else c :: normalizeCRLF (d :: rest)

/-- `true` iff the string contains no CRLF pair. -/
def noCRLF : Str → Bool
  | [] => true
  | [_] => true
  | c :: d :: rest => if c = '\r' && d = '\n' then false else noCRLF (d :: rest)

/-!  ## The AST (`interface ASTNode` / `type Op` from `template.ts`)  -/

/-- The `Op` union from `template.ts`.  (`end` is a Lean keyword, so the
`'end'` operation is called `tagEnd` here.) -/
inductive Op where
  | blockStart
  | blockEnd
  | code
  | comment
  | tagEnd
  | escape
  | expression
  | line
  | text
deriving DecidableEq, Repr

/-- An AST node: operation, text value and (for `blockStart`) the optional
parameter list.  In the TypeScript code `hints` is a property that is only
set to a non-empty string; `none` covers both the absent and the
`undefined`/empty cases, which `compileTemplate` treats identically via
`node.hints ?? ''`. -/
structure ASTNode where
  op : Op
  value : Str
  hints : Option Str := none
deriving DecidableEq, Repr

abbrev AST := List ASTNode

/-- One step of `appendNodes`: push a node, merging it into the last node
of the list when both have the same `op` (concatenating values, keeping the
existing `hints`). -/
def appendNode : AST → ASTNode → AST
  | [], n => [n]
  | [a], n => if a.op = n.op then [⟨a.op, a.value ++ n.value, a.hints⟩] else [a, n]
  | a :: b :: rest, n => a :: appendNode (b :: rest) n

/-- `appendNodes(ast, ...nodes)` from `template.ts`. -/
def appendNodes (ast : AST) (ns : List ASTNode) : AST := ns.foldl appendNode ast

/-!  ## Line classification and tag scanning  -/

/-- The optional discriminator that follows `%` in `LINE_RE` and `<%` in
`START_RE`: `%`, `#`, `=` or `==`. -/
inductive TagKind where
  | percent
  | hash
  | eq
  | eqeq
deriving DecidableEq, Repr

/-- `line.match(LINE_RE)` with `LINE_RE = /^(\s*)%(%|#|={1,2})?(.*?)$/`:
leading whitespace, a literal `%`, an optional discriminator, and the rest
of the line.  The rest is matched by `(.*?)$`, so it may not contain a
line terminator (a lone CR can occur inside a split line); the whitespace
prefix is matched by `\s*`, which does allow them.  Returns
`(whitespace, discriminator, rest)`. -/
def lineMatch (l : Str) : Option (Str × Option TagKind × Str) :=
  let ws := l.takeWhile jsWs
  match l.drop ws.length with
  | '%' :: rest =>
    if rest.any jsLineTerm then none
    else
      match rest with
      | '%' :: r => some (ws, some .percent, r)
      | '#' :: r => some (ws, some .hash, r)
      | '=' :: '=' :: r => some (ws, some .eqeq, r)
      | '=' :: r => some (ws, some .eq, r)
      | r => some (ws, none, r)
  | _ => none

/-- `stickyMatch(sticky, START_RE)` with `START_RE = /(.*?)<%(%|#|={1,2})?/y`:
find the leftmost `<%`, return the text before it, the optional
discriminator and the remainder after the consumed opener.  The lazy
`(.*?)` cannot cross a line terminator, so an opener beyond one is not
found. -/
def findStart : Str → Option (Str × Option TagKind × Str)
  | '<' :: '%' :: rest =>
    match rest with
    | '%' :: r => some ([], some .percent, r)
    | '#' :: r => some ([], some .hash, r)
    | '=' :: '=' :: r => some ([], some .eqeq, r)
    | '=' :: r => some ([], some .eq, r)
    | r => some ([], none, r)
  | c :: rest =>
    if jsLineTerm c then none
    else
      match findStart rest with
      | some (pre, k, after) => some (c :: pre, k, after)
      | none => none
  | [] => none

/-- `stickyMatch(sticky, END_RE)` with `END_RE = /(.*?)(=)?%>/y`: find the
leftmost tag terminator, preferring `=%>` over `%>` at the same position.
The lazy `(.*?)` cannot cross a line terminator, so a terminator beyond
one is not found and the tag stays open.  Returns the text before it,
whether the `=` trim marker was present, and the remainder. -/
def findEnd : Str → Option (Str × Bool × Str)
  | '=' :: '%' :: '>' :: rest => some ([], true, rest)
  | '%' :: '>' :: rest => some ([], false, rest)
  | c :: rest =>
    if jsLineTerm c then none
    else
      match findEnd rest with
      | some (pre, f, after) => some (c :: pre, f, after)
      | none => none
  | [] => none

/-!  ## Block markers (`BLOCK_RE`, `BLOCK_REPLACE_RE`, `parseBlock`)  -/

/-- The `(?:\s*\(([^}]*)\))?` part of `BLOCK_NAME` followed by the closing
characters (`}>` for `BLOCK_RE`, `}}>` for `BLOCK_REPLACE_RE`): either an
optional-whitespace-then-parenthesised parameter list followed by the
closer, or the closer directly after the block name.  A parameter list is
a run of non-`\x7d` characters whose last character is `)`. -/
def matchParamsClose (closer : Str) (r2 : Str) : Option (Option Str × Str) :=
  let noParams : Option (Option Str × Str) :=
    if closer.isPrefixOf r2 then some (none, r2.drop closer.length) else none
  match r2.dropWhile jsWs with
  | '(' :: r4 =>
    let run := r4.takeWhile (fun c => !(c = '}'))
    let after := r4.drop run.length
    if run.getLast? = some ')' && closer.isPrefixOf after then
      some (some run.dropLast, after.drop closer.length)
    else noParams
  | _ => noParams

/-- Match `<\{(\/?)(\w+)(?:\s*\(([^}]*)\))?\}>` (the `BLOCK_NAME` core of
`BLOCK_RE`) at the start of the string.  Returns
(end marker?, name, parameter list?, rest). -/
def matchBlockSingle : Str → Option (Bool × Str × Option Str × Str)
  | '<' :: '{' :: r0 =>
    let slashed : Bool × Str := match r0 with
      | '/' :: r => (true, r)
      | r => (false, r)
    let name := slashed.2.takeWhile isWordChar
    if name = [] then none
    else
      match matchParamsClose ['}', '>'] (slashed.2.drop name.length) with
      | some (params, after) => some (slashed.1, name, params, after)
      | none => none
  | _ => none

/-- Match `<\{\{(\/?)(\w+)(?:\s*\(([^}]*)\))?\}\}>` (`BLOCK_REPLACE_RE`)
at the start of the string. -/
def matchBlockDouble : Str → Option (Bool × Str × Option Str × Str)
  | '<' :: '{' :: '{' :: r0 =>
    let slashed : Bool × Str := match r0 with
      | '/' :: r => (true, r)
      | r => (false, r)
    let name := slashed.2.takeWhile isWordChar
    if name = [] then none
    else
      match matchParamsClose ['}', '}', '>'] (slashed.2.drop name.length) with
      | some (params, after) => some (slashed.1, name, params, after)
      | none => none
  | _ => none

/-- Scan for the leftmost single-brace block marker, as
`text.match(BLOCK_RE)` does with its lazy `^(.*?)` prefix group.  Because
`.` in the regex matches neither LF nor CR, a marker is only found if no CR
occurs before it or in the rest of the line after it (lines never contain
LF).  Returns (prefix, end marker?, name, parameter list?, suffix). -/
def blockSplitGo (pre : Str) : Str → Option (Str × Bool × Str × Option Str × Str)
  | [] => none
  | c :: rest =>
    if c = '\r' then none
    else
      match matchBlockSingle (c :: rest) with
      | some (slash, name, params, after) =>
        if after.contains '\r' then blockSplitGo (c :: pre) rest
        else some (pre.reverse, slash, name, params, after)
      | none => blockSplitGo (c :: pre) rest

/-- `text.match(BLOCK_RE)`, decomposed. -/
def blockSplit (s : Str) : Option (Str × Bool × Str × Option Str × Str) :=
  blockSplitGo [] s

/-- `blockReplace` from `template.ts`: rebuild a double-brace marker as its
single-brace literal text. -/
def blockReplaceStr (slash : Bool) (name : Str) (params : Option Str) : Str :=
  ['<', '{'] ++ (if slash then ['/'] else []) ++
    (match params with
     | none => name
     | some p => name ++ '(' :: p ++ [')']) ++ ['}', '>']

/-- `text.replaceAll(BLOCK_REPLACE_RE, blockReplace)`: replace every
double-brace block marker, scanning left to right.  The fuel argument is
the length of the string; every step consumes at least one character. -/
def blockReplaceAllGo : Nat → Str → Str
  | 0, s => s
  | _, [] => []
  | fuel + 1, c :: rest =>
    match matchBlockDouble (c :: rest) with
    | some (slash, name, params, after) =>
      blockReplaceStr slash name params ++ blockReplaceAllGo fuel after
    | none => c :: blockReplaceAllGo fuel rest

def blockReplaceAll (s : Str) : Str := blockReplaceAllGo s.length s

/-- `parseBlock` from `template.ts`.  The fuel argument bounds the
recursion depth; callers pass the length of the text, which is ample since
each recursive call is on a strictly shorter string. -/
def parseBlock : Nat → Str → Op → AST
  | fuel, text, op =>
    if text = [] then []
    else if op ≠ .text then [⟨op, text, none⟩]
    else
      match blockSplit text with
      | none => [⟨.text, blockReplaceAll text, none⟩]
      | some (pre, slash, name, params, post) =>
        match fuel with
        | 0 => []
        | fuel' + 1 =>
          let node : ASTNode :=
            ⟨if slash then .blockEnd else .blockStart, name,
             match params with
             | some p => if p = [] then none else some p
             | none => none⟩
          let preNodes := if pre.all jsWs then [] else parseBlock fuel' pre op
          preNodes ++ node :: parseBlock fuel' post op

/-!  ## `parseLine` and `parseTemplate`  -/

/-- The scanning loop of `parseLine`, carrying the current mode, the trim
flag and the accumulated nodes over the remainder of the line.  The fuel
argument bounds the number of loop iterations; each iteration consumes at
least one character of the remainder (or empties it), so the callers'
`length + 1` is ample. -/
def parseLineGo : Nat → Op → Bool → AST → Str → AST × Op × Bool
  | _, op, trim, nodes, [] => (nodes, op, trim)
  | 0, op, trim, nodes, _ => (nodes, op, trim)
  | fuel + 1, op, trim, nodes, rem =>
    if op ≠ .text then
      match findEnd rem with
      | some (before, eqF, after) =>
        parseLineGo fuel .text (trim || (eqF && after = []))
          (appendNodes nodes [⟨op, before, none⟩, ⟨.tagEnd, [], none⟩]) after
      | none =>
        parseLineGo fuel op trim (appendNodes nodes [⟨op, rem, none⟩]) []
    else
      match findStart rem with
      | some (leftovers, kind, after) =>
        let nodes1 :=
          if leftovers = [] then nodes
          else appendNodes nodes (parseBlock leftovers.length leftovers op)
        match kind with
        | some .percent =>
          parseLineGo fuel .text trim (appendNodes nodes1 [⟨.text, ['<', '%'], none⟩]) after
        | some .hash =>
          parseLineGo fuel .comment trim (appendNodes nodes1 [⟨.comment, [], none⟩]) after
        | some .eq =>
          parseLineGo fuel .escape trim (appendNodes nodes1 [⟨.escape, [], none⟩]) after
        | some .eqeq =>
          parseLineGo fuel .expression trim (appendNodes nodes1 [⟨.expression, [], none⟩]) after
        | none =>
          parseLineGo fuel .code trim (appendNodes nodes1 [⟨.code, [], none⟩]) after
      | none =>
        parseLineGo fuel op trim (appendNodes nodes (parseBlock rem.length rem op)) []

/-- `parseLine` from `template.ts`: scan one line, then set the trim flag
if the line ends in a block marker, and append the line's newline as text
unless the parser is inside a tag, the trim flag is set, or this is the
last line. -/
def parseLine (l : Str) (op : Op) (isLast : Bool) : AST × Op :=
  let r := parseLineGo (l.length + 1) op false [] l
  let nodes := r.1
  let opOut := r.2.1
  let trim :=
    match nodes.getLast? with
    | some n => if n.op = .blockStart || n.op = .blockEnd then true else r.2.2
    | none => r.2.2
  if opOut = .text && !trim && !isLast then
    (appendNodes nodes [⟨.text, ['\n'], none⟩], opOut)
  else
    (nodes, opOut)

/-- The per-line loop of `parseTemplate`. -/
def parseTemplateGo : Op → AST → List Str → AST
  | _, ast, [] => ast
  | op, ast, l :: rest =>
    let isLast := rest = []
    if op = .text then
      match lineMatch l with
      | some (ws, kind, value) =>
        let ast1 :=
          match kind with
          | some .percent => appendNodes ast (parseLine (ws ++ '%' :: value) .text isLast).1
          | some .hash => appendNodes ast [⟨.comment, value, none⟩]
          | some .eq =>
            let a := appendNodes ast [⟨.escape, value, none⟩]
            if isLast then a else appendNodes a [⟨.text, ['\n'], none⟩]
          | some .eqeq =>
            let a := appendNodes ast [⟨.expression, value, none⟩]
            if isLast then a else appendNodes a [⟨.text, ['\n'], none⟩]
          | none => appendNodes ast [⟨.code, value, none⟩]
        parseTemplateGo .text (appendNodes ast1 [⟨.tagEnd, [], none⟩, ⟨.line, [], none⟩]) rest
      | none =>
        let r := parseLine l op isLast
        parseTemplateGo r.2 (appendNodes ast (r.1 ++ [⟨.line, [], none⟩])) rest
    else if l = [] then
      parseTemplateGo op (appendNodes ast [⟨op, [], none⟩, ⟨.line, [], none⟩]) rest
    else
      let r := parseLine l op isLast
      parseTemplateGo r.2 (appendNodes ast (r.1 ++ [⟨.line, [], none⟩])) rest

/-- `parseTemplate` from `template.ts`. -/
def parseTemplate (lines : List Str) : AST := parseTemplateGo .text [] lines

/-!  ## Code generation (`compileTemplate`, `sanitizeExpr`, `escapeText`)  -/

/-- Shorthand for the character list of a string literal. -/
def str (s : String) : Str := s.data

/-- The single-quote character. -/
def quoteChar : Char := Char.ofNat 39

/-- `sanitizeExpr` from `template.ts`: `expr.replace(/;\s*$/, '')` removes
a trailing semicolon (the last one) together with the whitespace following
it. -/
def sanitizeExpr (e : Str) : Str :=
  match e.reverse.dropWhile jsWs with
  | ';' :: r2 => r2.reverse
  | _ => e

/-- `text.replaceAll(t, r)` for a single-character search pattern. -/
def replaceAllC (t : Char) (r : Str) : Str → Str
  | [] => []
  | c :: rest => (if c = t then r else [c]) ++ replaceAllC t r rest

/-- `escapeText` from `template.ts`: escape backslash, single quote, LF and
CR, in that order, for embedding into a single-quoted string literal. -/
def escapeText (s : Str) : Str :=
  replaceAllC '\r' ['\\', 'r']
    (replaceAllC '\n' ['\\', 'n']
      (replaceAllC quoteChar ['\\', quoteChar]
        (replaceAllC '\\' ['\\', '\\'] s)))

/-- The multi-line expression look-ahead of `compileTemplate`: while the
next node is a `line` marker and the one after it is an expression node of
the same kind, join its value with an inserted newline and continue. -/
def foldExpr (o : Op) (v : Str) : AST → Str × AST
  | a :: b :: rest =>
    if a.op = .line ∧ b.op = o then foldExpr o (v ++ '\n' :: b.value) rest
    else (v, a :: b :: rest)
  | l => (v, l)

/-- The per-node loop of `compileTemplate`, producing the generated source.
The fuel argument bounds the number of iterations; each iteration consumes
at least one node, so the callers' node count is ample. -/
def compileNodes (esc0 : Unit) : Nat → AST → Str
  | _, [] => []
  | 0, _ => []
  | fuel + 1, node :: rest =>
    match node.op with
    | .escape =>
      let f := foldExpr .escape node.value rest
      str "__output += __escape(" ++ sanitizeExpr f.1 ++ str ");" ++ compileNodes esc0 fuel f.2
    | .expression =>
      let f := foldExpr .expression node.value rest
      str "__output += " ++ sanitizeExpr f.1 ++ str ";" ++ compileNodes esc0 fuel f.2
    | .text =>
      str "__output += '" ++ escapeText node.value ++ str "';" ++ compileNodes esc0 fuel rest
    | .code => node.value ++ compileNodes esc0 fuel rest
    | .blockStart =>
      str "const " ++ node.value ++ str " = async (" ++ node.hints.getD [] ++
        str ") => \x7b let __output = '';" ++ compileNodes esc0 fuel rest
    | .blockEnd => str "return __safe(__output); \x7d;" ++ compileNodes esc0 fuel rest
    | .line => '\n' :: compileNodes esc0 fuel rest
    | .comment => compileNodes esc0 fuel rest
    | .tagEnd => compileNodes esc0 fuel rest

/-- `compileTemplate` from `template.ts`: the generated body wrapped in the
output accumulator, the `with(__locals)` context binding and the
error-forwarding `try`/`catch`. -/
def compileTemplate (ast : AST) : Str :=
  str "try \x7b with(__locals)\x7b let __output = ''; " ++ compileNodes () ast.length ast ++
    str " return __output; \x7d \x7d catch (error) \x7b __context(error, __source) \x7d"

/-!  ## Values and the default escape function (`util.ts`)  -/

/-- A JavaScript value as far as the engine observes one: an ordinary
string, a `SafeString` (the pre-escaped marker class from `util.ts`), or a
number (for expression results such as `1+1`). -/
inductive JsVal where
  | str (s : Str)
  | safe (s : Str)
  | num (n : Int)
deriving DecidableEq, Repr

/-- The `XML_ESCAPE` table from `util.ts`, as a per-character replacement
(`value.replace(/[&<>'"]/g, xmlEscapeReplace)`). -/
def xmlEscapeChar (c : Char) : Str :=
  if c = '&' then str "&amp;"
  else if c = '<' then str "&lt;"
  else if c = '>' then str "&gt;"
  else if c = quoteChar then str "&#39;"
  else if c = '"' then str "&quot;"
  else [c]

/-- `xmlEscape` from `util.ts`: a `SafeString` passes through unchanged;
anything else is stringified and entity-escaped. -/
def xmlEscape : JsVal → Str
  | .safe s => s
  | .str s => s.flatMap xmlEscapeChar
  | .num n => (intToStr n).flatMap xmlEscapeChar

/-- JavaScript string coercion of a value (used by `__output += value` for
raw expressions). -/
def jsToString : JsVal → Str
  | .str s => s
  | .safe s => s
  | .num n => intToStr n

/-!  ## Render semantics

The generated source is executed by the host JavaScript engine; its
behaviour on the node kinds that do not themselves contain arbitrary
JavaScript statements is fixed by the generated code, and is captured by
the interpreter below, which follows `compileTemplate` branch for branch.
Embedded expression values are supplied by an oracle mapping the
expression's source text (after `sanitizeExpr`, exactly the text placed in
the generated source) to the value the host computes for it. `code`,
`blockStart` and `blockEnd` nodes inject arbitrary statements or closure
definitions, which no shallow interpreter can execute; on those the
interpreter reports `none` (templates using them are treated separately).
-/

/-- Evaluate an AST the way the generated code would run, with `esc` the
configured escape function and `oracle` the host evaluator for embedded
expressions.  The fuel argument bounds the number of steps; each step
consumes at least one node. -/
def evalNodes (esc : JsVal → Str) (oracle : Str → Option JsVal) : Nat → AST → Option Str
  | _, [] => some []
  | 0, _ => none
  | fuel + 1, node :: rest =>
    match node.op with
    | .text => (evalNodes esc oracle fuel rest).map (node.value ++ ·)
    | .escape =>
      let f := foldExpr .escape node.value rest
      match oracle (sanitizeExpr f.1) with
      | some v => (evalNodes esc oracle fuel f.2).map (esc v ++ ·)
      | none => none
    | .expression =>
      let f := foldExpr .expression node.value rest
      match oracle (sanitizeExpr f.1) with
      | some v => (evalNodes esc oracle fuel f.2).map (jsToString v ++ ·)
      | none => none
    | .comment => evalNodes esc oracle fuel rest
    | .tagEnd => evalNodes esc oracle fuel rest
    | .line => evalNodes esc oracle fuel rest
    | .code => none
    | .blockStart => none
    | .blockEnd => none

/-- Render a template string with the default `xmlEscape` escape function:
split into lines as the `Template` constructor does, parse, and evaluate
the resulting AST. -/
def renderTmpl (oracle : Str → Option JsVal) (t : Str) : Option Str :=
  let ast := parseTemplate (splitLines t)
  evalNodes xmlEscape oracle ast.length ast


/-!  ## Error context mapping (`throwWithContext`, `STACK_RE`)  -/

/-- `interface Source` from `template.ts`. -/
structure Source where
  lines : List Str
  name : Str
deriving DecidableEq, Repr

/-- A JavaScript `Error` as the engine observes it: its message and its
captured stack text. -/
structure JsError where
  message : Str
  stack : Str
deriving DecidableEq, Repr

/-- Scan for a fragment preceded by a `.+` gap: at least one character is
consumed before the fragment, and no consumed character may be a line
terminator (`.` matches neither LF nor CR).  Returns the remainder after
the leftmost such occurrence. -/
def seekFrag (frag : Str) : Str → Option Str
  | [] => none
  | c :: rest =>
    if c = '\n' ∨ c = '\r' then none
    else if frag.isPrefixOf rest then some (rest.drop frag.length)
    else seekFrag frag rest

/-- Split off a leading run of decimal digits. -/
def takeDigits (s : Str) : Str × Str := (s.takeWhile Char.isDigit, s.dropWhile Char.isDigit)

/-- `parseInt` on a digit run. -/
def digitsToNat (ds : Str) : Nat := ds.foldl (fun acc c => 10 * acc + (c.toNat - 48)) 0

/-- Consume `\d+:\d+` and return the remainder. -/
def matchLineCol (s : Str) : Option Str :=
  let d1 := takeDigits s
  if d1.1 = [] then none
  else
    match d1.2 with
    | ':' :: r2 =>
      let d2 := takeDigits r2
      if d2.1 = [] then none else some d2.2
    | _ => none

/-- The part of `STACK_RE` after the leading `at eval` literal:
`.+eval at _compileFn.+template\.ts:\d+:\d+.+<anonymous>:(\d+):\d+`,
returning the captured line number.  Each `.+` gap is resolved to the
leftmost completion (the stack marker occurs at most once per frame line,
so this coincides with the regex engine's greedy search on the stacks the
host produces). -/
def matchChain (s : Str) : Option Nat :=
  (seekFrag (str "eval at _compileFn") s).bind fun s1 =>
    (seekFrag (str "template.ts:") s1).bind fun s2 =>
      (matchLineCol s2).bind fun s3 =>
        (seekFrag (str "<anonymous>:") s3).bind fun s4 =>
          let d1 := takeDigits s4
          if d1.1 = [] then none
          else
            match d1.2 with
            | ':' :: r2 =>
              let d2 := takeDigits r2
              if d2.1 = [] then none else some (digitsToNat d1.1)
            | _ => none

/-- `stack.match(STACK_RE)`: try every start position left to right; at a
position where the literal `at eval` matches, attempt the rest of the
pattern, otherwise (or on failure) advance one character. -/
def findMarker : Str → Option Nat
  | [] => none
  | c :: rest =>
    if (str "at eval").isPrefixOf (c :: rest) then
      match matchChain ((c :: rest).drop 7) with
      | some n => some n
      | none => findMarker rest
    else findMarker rest

/-- The context-window loop of `throwWithContext`: each snippet line is
prefixed with the pointer marker (for the failing line) or four spaces,
its 1-based line number and `| `; `num` runs from `start + 1`. -/
def mkContextGo (line : Int) : Nat → List Str → List Str
  | _, [] => []
  | num, l :: rest =>
    ((if (num : Int) = line then str " >> " else str "    ") ++ natToStr num ++ str "| " ++ l)
      :: mkContextGo line (num + 1) rest

/-- The annotated context lines for a snippet starting at 0-based index
`start`. -/
def mkContextLines (line : Int) (start : Nat) (snippet : List Str) : List Str :=
  mkContextGo line (start + 1) snippet

/-- The rewritten message
`` `${name}:${line}\n${context.join('\n')}\n\n${error.message}` ``. -/
def mkErrorMessage (source : Source) (line : Int) (origMsg : Str) : Str :=
  let start := (max (line - 3) 0).toNat
  let endIdx := (min (line + 2) (source.lines.length : Int)).toNat
  let snippet := (source.lines.drop start).take (endIdx - start)
  source.name ++ ':' :: intToStr line ++ '\n' :: joinLF (mkContextLines line start snippet) ++
    str "\n\n" ++ origMsg

/-- `throwWithContext` from `template.ts`: if the stack carries no marker
from the compiled function's frame, the error is rethrown unmodified;
otherwise the reported generated-source line minus 2 is the template line,
and the message is rewritten around the context window
`lines.slice(max(line-3,0), min(line+2, lines.length))`. -/
def throwWithContext (e : JsError) (source : Source) : JsError :=
  match findMarker e.stack with
  | none => e
  | some n =>
    let line : Int := (n : Int) - 2
    { message := mkErrorMessage source line e.message, stack := e.stack }

/-!  ## The `Template` class: caching and render purity  -/

/-- The compiled artifact cached in `Template._fn`: in JavaScript this is
the function built from the generated code with the escape function bound;
it is determined by the generated source together with the AST it encodes
(kept so the render semantics can run it). -/
structure CompiledT where
  code : Str
  ast : AST
deriving DecidableEq, Repr

/-- The `Template` instance state: its `Source`, its escape function and
the lazily-populated compiled-function slot. -/
structure TemplateT where
  source : Source
  escape : JsVal → Str
  fn : Option CompiledT

/-- `Template.compile()`: return the cached artifact if present, otherwise
parse, generate and cache. -/
def compileT (t : TemplateT) : TemplateT × CompiledT :=
  match t.fn with
  | some c => (t, c)
  | none =>
    let ast := parseTemplate t.source.lines
    let c : CompiledT := ⟨compileTemplate ast, ast⟩
    ({ t with fn := some c }, c)

/-- `Template.render(data)`: compile (possibly from cache) and run the
compiled artifact on the data context, represented by the expression
oracle. -/
def renderT (t : TemplateT) (oracle : Str → Option JsVal) : TemplateT × Option Str :=
  let r := compileT t
  (r.1, evalNodes t.escape oracle r.2.ast.length r.2.ast)

/-!  ## Decoding generated string literals (for `escapeText` round-trip)  -/

/-- JavaScript's decoding of one escape sequence of the kinds `escapeText`
emits (`\\`, `\'`, `\n`, `\r`). -/
def decodeEsc (c : Char) : Option Char :=
  if c = '\\' then some '\\'
  else if c = quoteChar then some quoteChar
  else if c = 'n' then some '\n'
  else if c = 'r' then some '\r'
  else none

/-- Decode the body of a single-quoted JavaScript string literal, for the
escape sequences `escapeText` emits.  A bare quote would terminate the
literal early and a bare LF or CR is a syntax error, so those yield
`none`. -/
def decodeLit : Str → Option Str
  | [] => some []
  | c :: rest =>
    if c = '\\' then
      match rest with
      | [] => none
      | d :: rest2 => (decodeEsc d).bind fun e => (decodeLit rest2).map (e :: ·)
    else if c = quoteChar ∨ c = '\n' ∨ c = '\r' then none
    else (decodeLit rest).map (c :: ·)

/-!  ## The block-reuse template of claim C4

`evalNodes` does not execute `blockStart`/`blockEnd` nodes (they define
closures in the generated code).  For the concrete block template of claim
C4 the generated source is proved equal to an explicit string, and the two
definitions below transcribe that explicit program: the block closure
`const greet = async (name) => { let __output = ''; __output += 'Hi ';
__output += __escape( name ); __output += '!'; return __safe(__output); }`
and the main body `__output += __escape( await greet("A") ); __output +=
__escape( await greet("B") );`.  The default escape function is
`xmlEscape` and `__safe` wraps a string as a `SafeString`.
-/

def c4Template : Str :=
  str "<\x7bgreet(name)\x7d>Hi <%= name %>!<\x7b/greet\x7d><%= await greet(\"A\") %><%= await greet(\"B\") %>"

/-- The generated source for `c4Template` (proved below). -/
def c4Code : Str :=
  str "try \x7b with(__locals)\x7b let __output = ''; const greet = async (name) => \x7b let __output = '';__output += 'Hi ';__output += __escape( name );__output += '!';return __safe(__output); \x7d;__output += __escape( await greet(\"A\") );__output += __escape( await greet(\"B\") );\n return __output; \x7d \x7d catch (error) \x7b __context(error, __source) \x7d"

/-- Transcription of the `greet` closure from `c4Code`. -/
def greetFn (arg : Str) : JsVal :=
  .safe (str "Hi " ++ xmlEscape (.str arg) ++ str "!")

/-- Transcription of the main body of `c4Code`: the two escaped embeddings
of the awaited block results. -/
def c4Render : Str :=
  xmlEscape (greetFn (str "A")) ++ xmlEscape (greetFn (str "B"))

/-!  ## Remaining helpers used by the claim statements  -/

/-- Substring test (used to state what an error message does or does not
contain). -/
def hasSub (pat : Str) : Str → Bool
  | [] => pat.isPrefixOf []
  | c :: rest => pat.isPrefixOf (c :: rest) || hasSub pat rest

/-- An AST consisting only of literal-text and line-break nodes (what the
parser produces for a template with no directives, tags or block
markers). -/
def TextLine (ast : AST) : Prop := ∀ n ∈ ast, n.op = .text ∨ n.op = .line

/-- The output of the generated code for a text/line-only AST: the
concatenation of the text node values. -/
def concatText : AST → Str
  | [] => []
  | n :: rest => (if n.op = .text then n.value else []) ++ concatText rest

/-- Host evaluation oracle for the expression `1+1` (claim C3). -/
def oracleAdd : Str → Option JsVal :=
  fun e => if e = str " 1+1 " then some (.num 2) else none

/-- Host evaluation oracle for the folded multi-line expression
`1 +\n 1` (claim C5). -/
def oracleML : Str → Option JsVal :=
  fun e => if e = str " 1 +\n 1 " then some (.num 2) else none

/-- Host evaluation oracle for the two block calls of claim C4's template:
the host computes `await greet("A")` and `await greet("B")` by running
the `greet` closure, whose transcription is `greetFn`. -/
def oracleC4 : Str → Option JsVal :=
  fun e =>
    if e = str " await greet(\"A\") " then some (greetFn (str "A"))
    else if e = str " await greet(\"B\") " then some (greetFn (str "B"))
    else none

/-- The multi-line expression template of claim C5. -/
def c5Template : Str := str "<%= 1 +\n 1 %>"

/-- The generated source for `c5Template` (proved below): the two escape
node values are joined with an inserted newline into a single
`__escape(...)` argument, and the consumed line marker no longer emits a
second newline into the generated source. -/
def c5Code : Str :=
  str "try \x7b with(__locals)\x7b let __output = ''; __output += __escape( 1 +\n 1 );\n return __output; \x7d \x7d catch (error) \x7b __context(error, __source) \x7d"

/-- A nine-line source document for the error-window claims. -/
def c2Source : Source :=
  ⟨[str "l1", str "l2", str "l3", str "l4", str "l5", str "l6", str "l7", str "l8", str "l9"],
   str "t"⟩

/-- A captured stack for a failure raised on generated-source line 8,
i.e. original template line 6 (the shape V8 produces for code built by
`_compileFn` via `new AsyncFunction`). -/
def c2Stack : Str :=
  str "    at eval (eval at _compileFn (file:///x/template.ts:95:18), <anonymous>:8:11)\n    at file:///x/template.ts:97:19"

/-- A stack with no marker from the compiled function's frame (claim C9's
witness): the failure propagated from elsewhere. -/
def c9Stack : Str := str "    at main (file:///x/app.js:1:1)"

/-- The per-character effect of `escapeText` (derived below from the four
`replaceAll` passes). -/
def escTextChar (c : Char) : Str :=
  if c = '\\' then ['\\', '\\']
  else if c = quoteChar then ['\\', quoteChar]
  else if c = '\n' then ['\\', 'n']
  else if c = '\r' then ['\\', 'r']
  else [c]

/-!  ## Supporting lemmas: line splitting  -/

theorem splitLines_ne_nil (s : Str) : splitLines s ≠ [] := by
  induction s using splitLines.induct with
  | case1 => simp [splitLines]
  | case2 => simp [splitLines]
  | case3 c h => simp [splitLines, h]
  | case4 d rest ih => simp [splitLines]
  | case5 c d rest hc hb ih => simp [splitLines, hc, hb]
  | case6 c d rest hc hb ih =>
    simp only [splitLines, if_neg hc, if_neg hb]
    cases h : splitLines (d :: rest) <;> simp [headCons]

theorem joinLF_cons_cons (l : Str) (m : Str) (ls : List Str) :
    joinLF (l :: m :: ls) = l ++ '\n' :: joinLF (m :: ls) := rfl

theorem joinLF_headCons (c : Char) (ls : List Str) (h : ls ≠ []) :
    joinLF (headCons c ls) = c :: joinLF ls := by
  cases ls with
  | nil => exact absurd rfl h
  | cons l tl =>
    cases tl with
    | nil => rfl
    | cons m ms => rfl

theorem joinLF_splitLines (s : Str) : joinLF (splitLines s) = normalizeCRLF s := by
  induction s using splitLines.induct with
  | case1 => rfl
  | case2 => rfl
  | case3 c h => simp [splitLines, h, joinLF, normalizeCRLF]
  | case4 d rest ih =>
    have e1 : splitLines ('\n' :: d :: rest) = [] :: splitLines (d :: rest) := rfl
    have e2 : normalizeCRLF ('\n' :: d :: rest) = '\n' :: normalizeCRLF (d :: rest) := rfl
    cases hs : splitLines (d :: rest) with
    | nil => exact absurd hs (splitLines_ne_nil _)
    | cons l ls =>
      rw [hs] at ih
      rw [e1, e2, hs, joinLF_cons_cons, ih]
      simp
  | case5 c d rest hc hb ih =>
    simp only [Bool.and_eq_true, decide_eq_true_eq] at hb
    obtain ⟨hc', hd'⟩ := hb
    subst hc'
    subst hd'
    have e1 : splitLines ('\r' :: '\n' :: rest) = [] :: splitLines rest := rfl
    have e2 : normalizeCRLF ('\r' :: '\n' :: rest) = '\n' :: normalizeCRLF rest := rfl
    cases hs : splitLines rest with
    | nil => exact absurd hs (splitLines_ne_nil _)
    | cons l ls =>
      rw [hs] at ih
      rw [e1, e2, hs, joinLF_cons_cons, ih]
      simp
  | case6 c d rest hc hb ih =>
    simp only [splitLines, if_neg hc, if_neg hb]
    rw [joinLF_headCons _ _ (splitLines_ne_nil _), ih]
    simp only [normalizeCRLF, if_neg hb]

theorem noCRLF_tail (c : Char) (rest : Str) (h : noCRLF (c :: rest) = true) :
    noCRLF rest = true := by
  cases rest with
  | nil => rfl
  | cons d tl =>
    revert h
    simp only [noCRLF]
    split
    · intro h; exact absurd h (by simp)
    · intro h; exact h

theorem normalizeCRLF_of_noCRLF (s : Str) (h : noCRLF s = true) : normalizeCRLF s = s := by
  induction s using normalizeCRLF.induct with
  | case1 => rfl
  | case2 c => rfl
  | case3 c d rest hb ih =>
    revert h
    simp only [noCRLF, if_pos hb]
    intro h
    exact absurd h (by simp)
  | case4 c d rest hb ih =>
    revert h
    simp only [noCRLF, if_neg hb, normalizeCRLF]
    intro h
    rw [ih h]


/-!  ## Supporting lemmas: text-only ASTs  -/

theorem concatText_append (xs ys : AST) :
    concatText (xs ++ ys) = concatText xs ++ concatText ys := by
  induction xs with
  | nil => rfl
  | cons n rest ih => simp [concatText, ih]

theorem concatText_appendNode (ast : AST) (n : ASTNode) :
    concatText (appendNode ast n) =
      concatText ast ++ (if n.op = .text then n.value else []) := by
  induction ast with
  | nil => simp [appendNode, concatText]
  | cons a rest ih =>
    cases rest with
    | nil =>
      simp only [appendNode]
      split
      · rename_i hop
        simp [concatText, hop]
        split <;> simp_all
      · simp [concatText]
    | cons b rest2 =>
      simp only [appendNode, concatText, ih]
      simp [List.append_assoc]

theorem textLine_appendNode (ast : AST) (n : ASTNode)
    (ha : TextLine ast) (hn : n.op = .text ∨ n.op = .line) :
    TextLine (appendNode ast n) := by
  induction ast with
  | nil =>
    intro m hm
    simp [appendNode] at hm
    subst hm
    exact hn
  | cons a rest ih =>
    have haa : a.op = .text ∨ a.op = .line := ha a (by simp)
    have harest : TextLine rest := fun m hm => ha m (by simp [hm])
    cases rest with
    | nil =>
      intro m hm
      simp only [appendNode] at hm
      split at hm
      · simp at hm
        subst hm
        exact haa
      · simp at hm
        rcases hm with hm | hm
        · subst hm; exact haa
        · subst hm; exact hn
    | cons b rest2 =>
      intro m hm
      simp only [appendNode] at hm
      simp at hm
      rcases hm with hm | hm
      · subst hm; exact haa
      · exact ih harest m hm

theorem concatText_appendNodes (ast : AST) (ns : List ASTNode) :
    concatText (appendNodes ast ns) = concatText ast ++ concatText ns := by
  induction ns generalizing ast with
  | nil => simp [appendNodes, concatText]
  | cons n rest ih =>
    have h1 : appendNodes ast (n :: rest) = appendNodes (appendNode ast n) rest := rfl
    rw [h1, ih, concatText_appendNode]
    simp [concatText, List.append_assoc]

theorem textLine_appendNodes (ast : AST) (ns : List ASTNode)
    (ha : TextLine ast) (hn : TextLine ns) : TextLine (appendNodes ast ns) := by
  induction ns generalizing ast with
  | nil => exact ha
  | cons n rest ih =>
    have h1 : appendNodes ast (n :: rest) = appendNodes (appendNode ast n) rest := rfl
    rw [h1]
    exact ih (appendNode ast n)
      (textLine_appendNode ast n ha (hn n (by simp)))
      (fun m hm => hn m (by simp [hm]))

theorem evalNodes_textLine (esc : JsVal → Str) (oracle : Str → Option JsVal) :
    ∀ ast : AST, TextLine ast → ∀ fuel, ast.length ≤ fuel →
      evalNodes esc oracle fuel ast = some (concatText ast) := by
  intro ast
  induction ast with
  | nil => intro _ fuel _; cases fuel <;> rfl
  | cons n rest ih =>
    intro h fuel hf
    cases fuel with
    | zero => simp at hf
    | succ f =>
      have hrest : TextLine rest := fun m hm => h m (by simp [hm])
      have hfr : rest.length ≤ f := by simpa using hf
      rcases h n (by simp) with hop | hop <;>
        simp [evalNodes, hop, ih hrest f hfr, concatText]

theorem replaceAllC_append (t : Char) (r : Str) (a b : Str) :
    replaceAllC t r (a ++ b) = replaceAllC t r a ++ replaceAllC t r b := by
  induction a with
  | nil => rfl
  | cons c rest ih => simp [replaceAllC, ih]

theorem escapeText_nil : escapeText [] = [] := rfl

theorem escapeText_cons (c : Char) (s : Str) :
    escapeText (c :: s) = escTextChar c ++ escapeText s := by
  by_cases h1 : c = '\\'
  · subst h1
    simp [escapeText, escTextChar, replaceAllC, replaceAllC_append, quoteChar]
  · by_cases h2 : c = quoteChar
    · subst h2
      simp [escapeText, escTextChar, replaceAllC, replaceAllC_append, quoteChar]
    · by_cases h3 : c = '\n'
      · subst h3
        simp [escapeText, escTextChar, replaceAllC, replaceAllC_append, quoteChar]
      · by_cases h4 : c = '\r'
        · subst h4
          simp [escapeText, escTextChar, replaceAllC, replaceAllC_append, quoteChar]
        · simp [escapeText, escTextChar, replaceAllC, replaceAllC_append, h1, h2, h3, h4]

theorem decodeLit_escapeText (s : Str) : decodeLit (escapeText s) = some s := by
  induction s with
  | nil => rfl
  | cons c rest ih =>
    rw [escapeText_cons]
    by_cases h1 : c = '\\'
    · subst h1
      simp [escTextChar, decodeLit, decodeEsc, ih, quoteChar]
    · by_cases h2 : c = quoteChar
      · subst h2
        simp [escTextChar, h1, decodeLit, decodeEsc, ih, quoteChar]
      · by_cases h3 : c = '\n'
        · subst h3
          simp [escTextChar, decodeLit, decodeEsc, ih, quoteChar]
        · by_cases h4 : c = '\r'
          · subst h4
            simp [escTextChar, decodeLit, decodeEsc, ih, quoteChar]
          · simp only [escTextChar, if_neg h1, if_neg h2, if_neg h3, if_neg h4,
              List.singleton_append]
            cases he : escapeText rest with
            | nil =>
              rw [he] at ih
              have hr : rest = [] := by
                have := ih.symm
                simp [decodeLit] at this
                exact this
              subst hr
              simp [decodeLit, h1, h2, h3, h4]
            | cons d tl =>
              rw [he] at ih
              simp [decodeLit, h1, h2, h3, h4, ih]

/-!  ## Supporting lemmas: the error context mapper  -/

theorem throwWithContext_none (e : JsError) (source : Source)
    (h : findMarker e.stack = none) : throwWithContext e source = e := by
  unfold throwWithContext
  rw [h]

theorem throwWithContext_some (e : JsError) (source : Source) (n : Nat)
    (h : findMarker e.stack = some n) :
    throwWithContext e source =
      ⟨mkErrorMessage source ((n : Int) - 2) e.message, e.stack⟩ := by
  unfold throwWithContext
  rw [h]

/-!  ## The claims  -/

/-- C3: the code contradicts the claim (and the repository's own test
suite) on the trim example.  The first conjunct evaluates the failing
input: rendering `"  <%= 1+1 =%>\n"` yields `"  2"` — the `=%>` terminator
suppresses the trailing newline but the two leading spaces survive as a
text node, while the claim, the README ("whitespace characters around tags
can be trimmed") and the test `'  <%= 1 + 1 =%>\n'` → `'2'` require the
surrounding whitespace to be removed as well.  The second conjunct is the
claim's other half, which does hold: without the trim marker the newline
is preserved. -/
theorem c3_trim_keeps_surrounding_whitespace :
    renderTmpl oracleAdd (str "  <%= 1+1 =%>\n") = some (str "  2") ∧
    renderTmpl oracleAdd (str "<%= 1+1 %>\n") = some (str "2\n") :=
  ⟨rfl, rfl⟩

/-- C6: `compile()` caches: a second compile returns the same state and the
identical cached artifact; rendering mutates nothing beyond the one-time
population of the cache slot, and the result of a render does not depend
on earlier renders of the same template. -/
theorem c6_compile_cached_render_pure :
    (∀ t : TemplateT, compileT (compileT t).1 = compileT t) ∧
    (∀ (t : TemplateT) (o : Str → Option JsVal), (renderT t o).1 = (compileT t).1) ∧
    (∀ (t : TemplateT) (o1 o2 : Str → Option JsVal),
      (renderT (renderT t o1).1 o2).2 = (renderT t o2).2) := by
  refine ⟨fun t => ?_, fun t o => ?_, fun t o1 o2 => ?_⟩ <;>
    cases h : t.fn <;> simp [compileT, renderT, h]

/-- C7: the literal-escape forms round-trip to their single-marker
equivalents: `<%%` emits literal `<%` text instead of switching mode, and
the double-brace block form is replaced in place by the single-brace
literal text without defining a block. -/
theorem c7_literal_escape_roundtrip :
    renderTmpl (fun _ => none) (str "<%% 1+1 %>") = some (str "<% 1+1 %>") ∧
    renderTmpl (fun _ => none) (str "<%%= x %>") = some (str "<%= x %>") ∧
    renderTmpl (fun _ => none) (str "<\x7b\x7bfoo\x7d\x7d>Foo<\x7b\x7b/foo\x7d\x7d>") =
      some (str "<\x7bfoo\x7d>Foo<\x7b/foo\x7d>") :=
  ⟨rfl, rfl, rfl⟩

/-- C8: the string-literal escaping applied to text node values decodes
back to exactly the original string under the host's string-literal
semantics, for every input, and is therefore injective. -/
theorem c8_escapeText_roundtrip :
    (∀ s : Str, decodeLit (escapeText s) = some s) ∧ Function.Injective escapeText := by
  refine ⟨decodeLit_escapeText, fun a b h => ?_⟩
  have h2 := congrArg decodeLit h
  rw [decodeLit_escapeText, decodeLit_escapeText] at h2
  exact Option.some.inj h2

/-- C9: when the captured stack contains no marker from the compiled
function's frame, the original failure object is re-raised completely
unmodified; only when the marker (reporting generated line `n`) is found
is the message rewritten to `<name>:<line>` followed by the annotated
window and the original message. -/
theorem c9_unmatched_stack_rethrows_unmodified :
    ∀ (e : JsError) (source : Source),
      (findMarker e.stack = none → throwWithContext e source = e) ∧
      (∀ n : Nat, findMarker e.stack = some n →
        throwWithContext e source =
          ⟨mkErrorMessage source ((n : Int) - 2) e.message, e.stack⟩) :=
  fun e source =>
    ⟨throwWithContext_none e source, fun n h => throwWithContext_some e source n h⟩

/-- Witness for C9: a stack that never entered the compiled function
passes through unmodified; one carrying the marker for generated line 8 is
rewritten. -/
theorem c9_witness :
    throwWithContext ⟨str "boom", c9Stack⟩ c2Source = ⟨str "boom", c9Stack⟩ ∧
    throwWithContext ⟨str "boom", c2Stack⟩ c2Source =
      ⟨mkErrorMessage c2Source ((8 : Int) - 2) (str "boom"), c2Stack⟩ := by
  constructor
  · exact (c9_unmatched_stack_rethrows_unmodified ⟨str "boom", c9Stack⟩ c2Source).1 rfl
  · exact (c9_unmatched_stack_rethrows_unmodified ⟨str "boom", c2Stack⟩ c2Source).2 8 rfl

/-- C10: the constructor's `split(/\r?\n/)` normalizes every CRLF to a
single LF — re-joining the split lines reproduces the template with CRLF
replaced by LF, never CRLF itself — while a lone CR not followed by LF is
preserved verbatim, and `escapeText` re-encodes it as an explicit `\r`
escape in generated source. -/
theorem c10_crlf_normalized :
    (∀ t : Str, joinLF (splitLines t) = normalizeCRLF t) ∧
    splitLines (str "a\r\nb\nc\rd") = [str "a", str "b", str "c\rd"] ∧
    renderTmpl (fun _ => none) (str "J\r\nust") = some (str "J\nust") ∧
    renderTmpl (fun _ => none) (str "J\rust") = some (str "J\rust") ∧
    escapeText (str "\r") = str "\\r" :=
  ⟨joinLF_splitLines, rfl, rfl, rfl, rfl⟩

/-- C2 counterexample: for a failure on the 6th original line (stack marker
for generated line 8) of a nine-line document, the rewritten message does
begin with `t:6`, but its context window is lines 4 to 8 — the annotated
form of line 3 (`3| l3`) does not occur anywhere in the message, so the
window does not span lines 3 through 8 as claimed. -/
theorem c2_window_counterexample :
    findMarker c2Stack = some 8 ∧
    (throwWithContext ⟨str "boom", c2Stack⟩ c2Source).message =
      str "t:6\n    4| l4\n    5| l5\n >> 6| l6\n    7| l7\n    8| l8\n\nboom" ∧
    hasSub (str "3| l3") (throwWithContext ⟨str "boom", c2Stack⟩ c2Source).message = false :=
  ⟨rfl, rfl, rfl⟩

/-- C2 (amended): for every failure whose stack reports generated line 8 —
original line 6 — against a document of at least eight lines, the message
is rewritten to begin with `<name>:6`, followed by the context window of
original lines 4 through 8 (two before through two after, clipped to the
document), with the erroring line prefixed by the ` >> ` pointer and the
others by four spaces, and ending with the original message. -/
theorem c2_error_context_window
    (msg stack name l1 l2 l3 l4 l5 l6 l7 l8 : Str) (rest : List Str)
    (h : findMarker stack = some 8) :
    throwWithContext ⟨msg, stack⟩ ⟨[l1, l2, l3, l4, l5, l6, l7, l8] ++ rest, name⟩ =
      ⟨name ++ ':' :: str "6" ++ '\n' ::
        joinLF [str "    " ++ str "4" ++ str "| " ++ l4,
                str "    " ++ str "5" ++ str "| " ++ l5,
                str " >> " ++ str "6" ++ str "| " ++ l6,
                str "    " ++ str "7" ++ str "| " ++ l7,
                str "    " ++ str "8" ++ str "| " ++ l8] ++ str "\n\n" ++ msg,
       stack⟩ := by
  rw [throwWithContext_some _ _ 8 h]
  have hline : ((8 : Nat) : Int) - 2 = 6 := by norm_num
  rw [hline]
  have hstart : ((max ((6 : Int) - 3) 0)).toNat = 3 := by decide
  have hend : (min ((6 : Int) + 2) (([l1, l2, l3, l4, l5, l6, l7, l8] ++ rest).length : Int)).toNat = 8 := by
    simp only [List.length_append, List.length_cons, List.length_nil]
    omega
  simp only [mkErrorMessage, hstart, hend]
  have hsnip : ((([l1, l2, l3, l4, l5, l6, l7, l8] ++ rest).drop 3).take (8 - 3)) =
      [l4, l5, l6, l7, l8] := by
    simp
  rw [hsnip]
  have h4 : natToStr 4 = str "4" := by decide
  have h5 : natToStr 5 = str "5" := by decide
  have h6 : natToStr 6 = str "6" := by decide
  have h7 : natToStr 7 = str "7" := by decide
  have h8 : natToStr 8 = str "8" := by decide
  have hint6 : intToStr 6 = str "6" := by decide
  simp only [mkContextLines, mkContextGo, h4, h5, h6, h7, h8, hint6]
  norm_num

/-- Witness for C2's amended theorem, at the concrete stack and document of
the counterexample. -/
theorem c2_error_context_window_witness :
    throwWithContext ⟨str "boom", c2Stack⟩
        ⟨[str "l1", str "l2", str "l3", str "l4", str "l5", str "l6", str "l7", str "l8"] ++
          [str "l9"], str "t"⟩ =
      ⟨str "t" ++ ':' :: str "6" ++ '\n' ::
        joinLF [str "    " ++ str "4" ++ str "| " ++ str "l4",
                str "    " ++ str "5" ++ str "| " ++ str "l5",
                str " >> " ++ str "6" ++ str "| " ++ str "l6",
                str "    " ++ str "7" ++ str "| " ++ str "l7",
                str "    " ++ str "8" ++ str "| " ++ str "l8"] ++ str "\n\n" ++ str "boom",
       c2Stack⟩ :=
  c2_error_context_window (str "boom") c2Stack (str "t") (str "l1") (str "l2") (str "l3")
    (str "l4") (str "l5") (str "l6") (str "l7") (str "l8") [str "l9"] rfl

/-- C5: in the generator's single left-to-right pass an expression node
immediately followed by a line-break marker and another node of the same
kind is joined with an inserted newline; the joined value has a trailing
statement terminator (a semicolon plus trailing whitespace) stripped; and
consequently `"<%= 1 +\n 1 %>"` renders to exactly `"2"`, with the
generated source for it proved as an explicit string (no spurious blank
line for the folded continuation). -/
theorem c5_multiline_expression_folding :
    (∀ a b : Str,
      compileNodes () 3 [⟨.escape, a, none⟩, ⟨.line, [], none⟩, ⟨.escape, b, none⟩] =
        str "__output += __escape(" ++ sanitizeExpr (a ++ '\n' :: b) ++ str ");") ∧
    (∀ v w : Str, w.all jsWs = true → sanitizeExpr (v ++ ';' :: w) = v) ∧
    compileTemplate (parseTemplate (splitLines c5Template)) = c5Code ∧
    renderTmpl oracleML c5Template = some (str "2") := by
  refine ⟨fun a b => ?_, fun v w hw => ?_, rfl, rfl⟩
  · simp [compileNodes, foldExpr]
  · unfold sanitizeExpr
    have hrev : (v ++ ';' :: w).reverse = w.reverse ++ ';' :: v.reverse := by
      simp
    rw [hrev]
    have hdrop : (w.reverse ++ ';' :: v.reverse).dropWhile jsWs = ';' :: v.reverse := by
      rw [List.dropWhile_append]
      have hw' : w.reverse.dropWhile jsWs = [] := by
        rw [List.dropWhile_eq_nil_iff]
        intro x hx
        exact List.all_eq_true.mp hw x (List.mem_reverse.mp hx)
      simp [hw', List.dropWhile_cons, jsWs]
    rw [hdrop]
    simp

/-- Witness for C5's universally quantified conjuncts: the fold at the
concrete node values of the claim's template and the terminator stripping
at a concrete expression. -/
theorem c5_multiline_expression_folding_witness :
    compileNodes () 3 [⟨.escape, str " 1 +", none⟩, ⟨.line, [], none⟩, ⟨.escape, str " 1 ", none⟩] =
      str "__output += __escape(" ++ sanitizeExpr (str " 1 +" ++ '\n' :: str " 1 ") ++ str ");" ∧
    sanitizeExpr (str "x" ++ ';' :: str "  ") = str "x" := by
  constructor
  · exact c5_multiline_expression_folding.1 (str " 1 +") (str " 1 ")
  · exact c5_multiline_expression_folding.2.1 (str "x") (str "  ") (by decide)

/-!  ## Supporting lemmas: parsing literal-only lines  -/

theorem parseLine_literal (l : Str) (isLast : Bool)
    (h1 : findStart l = none) (h2 : blockSplit l = none) (h3 : blockReplaceAll l = l) :
    (parseLine l .text isLast).2 = .text ∧
    TextLine (parseLine l .text isLast).1 ∧
    concatText (parseLine l .text isLast).1 = l ++ (if isLast then [] else ['\n']) := by
  cases l with
  | nil =>
    cases isLast <;>
      simp [parseLine, parseLineGo, TextLine, concatText, appendNodes, appendNode]
  | cons c cs =>
    have hgo : parseLineGo (cs.length + 1 + 1) .text false [] (c :: cs) =
        ([⟨.text, c :: cs, none⟩], .text, false) := by
      simp [parseLineGo, h1, parseBlock, h2, h3, appendNodes, appendNode]
    cases isLast <;>
      simp [parseLine, hgo, TextLine, concatText, appendNodes, appendNode]

theorem parseTemplateGo_literal (lines : List Str) :
    ∀ ast : AST,
      (∀ l ∈ lines, lineMatch l = none ∧ findStart l = none ∧
        blockSplit l = none ∧ blockReplaceAll l = l) →
      TextLine ast →
      TextLine (parseTemplateGo .text ast lines) ∧
      concatText (parseTemplateGo .text ast lines) = concatText ast ++ joinLF lines := by
  induction lines with
  | nil =>
    intro ast h ha
    exact ⟨ha, by simp [parseTemplateGo, joinLF]⟩
  | cons l rest ih =>
    intro ast h ha
    obtain ⟨hm, hs, hb, hr⟩ := h l (by simp)
    have hrest := fun l' hl' => h l' (List.mem_cons_of_mem _ hl')
    obtain ⟨hp2, hptl, hpc⟩ := parseLine_literal l (decide (rest = [])) hs hb hr
    have estep : parseTemplateGo .text ast (l :: rest) =
        parseTemplateGo .text
          (appendNodes ast ((parseLine l .text (decide (rest = []))).1 ++ [⟨.line, [], none⟩]))
          rest := by
      conv_lhs => rw [parseTemplateGo.eq_def]
      simp only [hm, if_pos rfl, hp2, if_true]
    rw [estep]
    have hnodes : TextLine ((parseLine l .text (decide (rest = []))).1 ++ [⟨.line, [], none⟩]) := by
      intro n hn
      rcases List.mem_append.mp hn with hn | hn
      · exact hptl n hn
      · simp at hn; subst hn; exact Or.inr rfl
    have hacc := textLine_appendNodes ast _ ha hnodes
    obtain ⟨htl, hcc⟩ := ih _ hrest hacc
    refine ⟨htl, ?_⟩
    rw [hcc, concatText_appendNodes, concatText_append, hpc]
    cases rest with
    | nil => simp [concatText, joinLF]
    | cons m ms => simp [concatText, joinLF, joinLF_cons_cons, List.append_assoc]

/-- C1 counterexample: a purely literal template containing a CRLF line
ending does not render byte-for-byte — the CRLF is normalized to a single
LF, so the output differs from the input. -/
theorem c1_crlf_counterexample :
    renderTmpl (fun _ => none) (str "a\r\nb") = some (str "a\nb") ∧
    some (str "a\nb") ≠ some (str "a\r\nb") :=
  ⟨rfl, by decide⟩

/-- C1 (amended): for every template consisting only of literal text — no
line matches the directive-line pattern, no line contains a `<%` tag
opener, and no line contains a single- or double-brace block marker — and
containing no CRLF sequence, rendering with any data context resolves to
exactly the input string, byte for byte (with CRLF present, the output is
the input with each CRLF normalized to LF, per the counterexample). -/
theorem c1_literal_text_renders_identically
    (oracle : Str → Option JsVal) (t : Str)
    (h : ∀ l ∈ splitLines t, lineMatch l = none ∧ findStart l = none ∧
      blockSplit l = none ∧ blockReplaceAll l = l)
    (hcr : noCRLF t = true) :
    renderTmpl oracle t = some t := by
  obtain ⟨htl, hcc⟩ :=
    parseTemplateGo_literal (splitLines t) [] h (by intro n hn; simp at hn)
  unfold renderTmpl parseTemplate
  rw [evalNodes_textLine _ _ _ htl _ le_rfl, hcc]
  simp only [concatText, List.nil_append]
  rw [joinLF_splitLines, normalizeCRLF_of_noCRLF _ hcr]

/-- Witness for C1's amended theorem at a concrete multi-line literal
template. -/
theorem c1_literal_text_witness :
    renderTmpl (fun _ => none) (str "Hello World!\n  indented text\nlast") =
      some (str "Hello World!\n  indented text\nlast") :=
  c1_literal_text_renders_identically (fun _ => none) _
    (by
      intro l hl
      have hsplit : splitLines (str "Hello World!\n  indented text\nlast") =
          [str "Hello World!", str "  indented text", str "last"] := rfl
      rw [hsplit] at hl
      fin_cases hl <;> exact ⟨rfl, rfl, rfl, rfl⟩)
    (by decide)

set_option maxRecDepth 8000 in
/-- C4: for the block template, the generated source is proved equal to the
explicit program `c4Code`, in which the block is a named parameterized
async closure returning its accumulated output wrapped via `__safe`; the
transcription of that program (`greetFn`, `c4Render`) produces exactly
`"Hi A!Hi B!"`; the interpreter run over the template's non-block tail with
the host supplying the two block-call values agrees; and in general the
escaping form passes a pre-escaped value through unchanged while an
ordinary string is entity-escaped. -/
theorem c4_block_reuse :
    compileTemplate (parseTemplate (splitLines c4Template)) = c4Code ∧
    c4Render = str "Hi A!Hi B!" ∧
    evalNodes xmlEscape oracleC4 5
        [⟨.escape, str " await greet(\"A\") ", none⟩, ⟨.tagEnd, [], none⟩,
         ⟨.escape, str " await greet(\"B\") ", none⟩, ⟨.tagEnd, [], none⟩,
         ⟨.line, [], none⟩] = some (str "Hi A!Hi B!") ∧
    (∀ s : Str, xmlEscape (.safe s) = s) ∧
    xmlEscape (.str (str "<b>")) = str "&lt;b&gt;" :=
  ⟨rfl, rfl, rfl, fun _ => rfl, rfl⟩
